import Mathlib

/-!
Shallow embedding of the replication agent of nats-kv-sync (src/src/index.ts,
data model in src/src/types.ts) and proofs about its LWW merge rule, local
change watcher, and anti-entropy reconciliation cycle.

Stores are modelled as total functions from keys to optional entries; the
JavaScript string comparison used by the LWW tie-break is modelled as the
lexicographic order on the underlying character lists.
-/

namespace NatsKvSync

/-- Per-key replication metadata record (src/src/types.ts, KvMetadata). -/
structure KvMetadata where
  ts : Nat
  node_id : String
  deriving DecidableEq, Repr

/-- The operation kind of a replicated operation (types.ts, field op). -/
inductive OpKind where
  | PUT
  | DEL
  deriving DecidableEq, Repr

/-- A replicated operation (src/src/types.ts, CrdtOperation).
value is none exactly where the JS value is null. -/
structure CrdtOperation where
  op : OpKind
  bucket : String
  key : String
  value : Option String
  ts : Nat
  node_id : String
  deriving DecidableEq, Repr

/-- The two per-site key-value buckets: kv is the data bucket ("config"),
kvMeta the metadata bucket ("config_meta"); a key maps to none when absent. -/
structure SyncState where
  kv : String → Option String
  kvMeta : String → Option KvMetadata

/-- Bucket name constant (index.ts line 23). -/
def BUCKET_NAME : String := "config"

/-- JavaScript lexicographic string comparison a < b, modelled on the
character lists of the strings. -/
abbrev strLt (a b : String) : Prop := a.data < b.data

/-- Local metadata read with default, index.ts lines 178-183: a missing
record is treated as ts 0 and empty node_id. -/
def localMetaFor (s : SyncState) (key : String) : KvMetadata :=
  match s.kvMeta key with
  | some m => m
  | none => { ts := 0, node_id := "" }

/-- The CRDT LWW decision of index.ts lines 186-188: the remote operation
wins iff op.ts > localMeta.ts, or op.ts == localMeta.ts and
op.node_id > localMeta.node_id. -/
abbrev remoteWins (s : SyncState) (op : CrdtOperation) : Prop :=
  (localMetaFor s op.key).ts < op.ts ∨
    (op.ts = (localMetaFor s op.key).ts ∧ strLt (localMetaFor s op.key).node_id op.node_id)

/-- Metadata write of a winning remote operation, index.ts lines 195-196. -/
def metaSet (op : CrdtOperation) (mm : String → Option KvMetadata) : String → Option KvMetadata :=
  fun k => if k = op.key then some { ts := op.ts, node_id := op.node_id } else mm k

/-- Data-store mutation of a winning remote operation, index.ts lines
198-202: a PUT with non-null value writes the value, a DEL deletes the key,
and a PUT with null value changes nothing. -/
def mutate (op : CrdtOperation) (kv : String → Option String) : String → Option String :=
  if op.op = OpKind.PUT ∧ op.value ≠ none then fun k => if k = op.key then op.value else kv k
  else if op.op = OpKind.DEL then fun k => if k = op.key then none else kv k
  else kv

/-- Result of processing one message in the remote listener: the new store
state, whether the message was acknowledged, and whether the win branch
(index.ts lines 190-202) was taken. -/
structure RemoteResult where
  state : SyncState
  acked : Bool
  applied : Bool

/-- One message of the remote listener loop, index.ts lines 166-210:
self-originated operations are acknowledged and discarded; otherwise the LWW
rule decides; a winning operation writes the metadata record and then
mutates the data store; every path acknowledges. -/
def applyRemote (nodeId : String) (s : SyncState) (op : CrdtOperation) : RemoteResult :=
  if op.node_id = nodeId then
    { state := s, acked := true, applied := false }
  else if remoteWins s op then
    { state := { kv := mutate op s.kv, kvMeta := metaSet op s.kvMeta },
      acked := true, applied := true }
  else
    { state := s, acked := true, applied := false }

/-- The state transition of one remote-listener message. -/
def stepR (nodeId : String) (s : SyncState) (op : CrdtOperation) : SyncState :=
  (applyRemote nodeId s op).state

/-- Observable side effects of the remote listener, in program order. -/
inductive Effect where
  | metaWrite (key : String) (meta : KvMetadata)
  | dataPut (key : String) (value : String)
  | dataDelete (key : String)
  | ack
  deriving DecidableEq, Repr

/-- Whether an effect mutates the data store. -/
def Effect.isDataMut : Effect → Bool
  | dataPut _ _ => true
  | dataDelete _ => true
  | _ => false

/-- Effect trace of one remote-listener message, index.ts lines 166-210,
in the order the source performs them: on a win, the kvMeta.put of line 196
precedes the kv.put or kv.delete of lines 198-202, and m.ack comes last. -/
def remoteEffects (nodeId : String) (s : SyncState) (op : CrdtOperation) : List Effect :=
  if op.node_id = nodeId then [Effect.ack]
  else if remoteWins s op then
    Effect.metaWrite op.key { ts := op.ts, node_id := op.node_id } ::
      ((if op.op = OpKind.PUT ∧ op.value ≠ none then [Effect.dataPut op.key (op.value.getD "")]
        else if op.op = OpKind.DEL then [Effect.dataDelete op.key]
        else []) ++ [Effect.ack])
  else [Effect.ack]

/-- Interpretation of one effect on the two buckets. -/
def runEffect (s : SyncState) : Effect → SyncState
  | .metaWrite key m => { s with kvMeta := fun k => if k = key then some m else s.kvMeta k }
  | .dataPut key v => { s with kv := fun k => if k = key then some v else s.kv k }
  | .dataDelete key => { s with kv := fun k => if k = key then none else s.kv k }
  | .ack => s

/-- Kind of a change notification from the data bucket watch. -/
inductive WatchKind where
  | PUT
  | DEL
  deriving DecidableEq, Repr

/-- A change notification delivered by the data bucket watch; value is the
decoded entry value, none where the JS value is null. -/
structure WatchEntry where
  key : String
  value : Option String
  operation : WatchKind
  deriving DecidableEq, Repr

/-- One iteration of the local watcher loop, index.ts lines 113-151: read
the metadata record of the changed key; if it exists and carries a foreign
node_id the notification is an echo and is dropped; otherwise the watcher
stamps the change with the current clock and the local node id, writes the
metadata record, and publishes the operation (returned as some op). -/
def localWatchStep (nodeId : String) (now : Nat) (s : SyncState) (entry : WatchEntry) :
    SyncState × Option CrdtOperation :=
  let value := entry.value
  let opType := if entry.operation = WatchKind.DEL ∨ entry.value = none then OpKind.DEL else OpKind.PUT
  let newMeta : KvMetadata := { ts := now, node_id := nodeId }
  let published : SyncState × Option CrdtOperation :=
    ({ s with kvMeta := fun k => if k = entry.key then some newMeta else s.kvMeta k },
      some { op := opType, bucket := BUCKET_NAME, key := entry.key, value := value,
             ts := now, node_id := nodeId })
  match s.kvMeta entry.key with
  | some currentMeta => if currentMeta.node_id ≠ nodeId then (s, none) else published
  | none => published

/-- The loop body of one anti-entropy cycle, index.ts lines 68-98, inside
the try of lines 68-104: for each key, a key missing either its data entry
or its metadata entry is skipped; otherwise the stored value is re-published
with the stored timestamp and node id. pubFail models js.publish raising:
when it returns some e for the constructed operation, the exception aborts
the rest of the loop and is caught (and logged) by the catch of line 102,
reported in the third component. The state is returned untouched: the cycle
performs no kv or kvMeta write. -/
def antiEntropyLoop (pubFail : CrdtOperation → Option String) (s : SyncState) :
    List String → SyncState × List CrdtOperation × Option String
  | [] => (s, [], none)
  | key :: rest =>
    match s.kv key, s.kvMeta key with
    | some value, some meta =>
      let op : CrdtOperation :=
        { op := OpKind.PUT, bucket := BUCKET_NAME, key := key, value := some value,
          ts := meta.ts, node_id := meta.node_id }
      match pubFail op with
      | some e => (s, [], some e)
      | none =>
        let r := antiEntropyLoop pubFail s rest
        (r.1, op :: r.2.1, r.2.2)
    | _, _ => antiEntropyLoop pubFail s rest

/-- The operations an error-free anti-entropy cycle publishes: one PUT per
key holding both a data value and a metadata record, carrying the stored
value and the stored timestamp and node id. -/
def reconcileOps (s : SyncState) (keys : List String) : List CrdtOperation :=
  keys.filterMap fun key =>
    match s.kv key, s.kvMeta key with
    | some value, some meta =>
      some { op := OpKind.PUT, bucket := BUCKET_NAME, key := key, value := some value,
             ts := meta.ts, node_id := meta.node_id }
    | _, _ => none

/-- The setInterval of index.ts line 65: one cycle per tick; each tick runs
its own cycle whatever happened in earlier ticks, because the catch of line
102 swallows the cycle error. Each tick's transient publish failures are
given by its own entry of pubFails. -/
def antiEntropyTicks (pubFails : List (CrdtOperation → Option String)) (s : SyncState)
    (keys : List String) : List (SyncState × List CrdtOperation × Option String) :=
  pubFails.map fun pubFail => antiEntropyLoop pubFail s keys

/-- Strict LWW precedence on (timestamp, node_id) pairs. -/
abbrev pairLt (p q : Nat × String) : Prop := p.1 < q.1 ∨ (p.1 = q.1 ∧ strLt p.2 q.2)

/-- The empty pair of buckets. -/
def emptyState : SyncState := { kv := fun _ => none, kvMeta := fun _ => none }

/-- Two distinct remote operations sharing the (ts, node_id) identity. -/
def cexSameId1 : CrdtOperation :=
  { op := OpKind.PUT, bucket := "config", key := "x", value := some "1", ts := 1, node_id := "b" }

/-- Second operation with the identity of cexSameId1 but another value. -/
def cexSameId2 : CrdtOperation :=
  { op := OpKind.PUT, bucket := "config", key := "x", value := some "2", ts := 1, node_id := "b" }

/-- A remote PUT used in concrete instantiations. -/
def witPut : CrdtOperation :=
  { op := OpKind.PUT, bucket := "config", key := "x", value := some "1", ts := 1, node_id := "b" }

/-- A remote DEL used in concrete instantiations. -/
def witDel : CrdtOperation :=
  { op := OpKind.DEL, bucket := "config", key := "x", value := none, ts := 2, node_id := "c" }

/-- A later remote PUT with null value. -/
def witNullPut : CrdtOperation :=
  { op := OpKind.PUT, bucket := "config", key := "x", value := none, ts := 5, node_id := "b" }

/-- An operation originated by the local site "a". -/
def witSelfOp : CrdtOperation :=
  { op := OpKind.PUT, bucket := "config", key := "x", value := some "v", ts := 9, node_id := "a" }

/-- A state holding one stale local value for key "x" and no metadata. -/
def tombState : SyncState :=
  { kv := fun k => if k = "x" then some "old" else none, kvMeta := fun _ => none }

/-- A state holding data and metadata for keys "k1" and "k2". -/
def cycleState : SyncState :=
  { kv := fun k => if k = "k1" then some "v1" else if k = "k2" then some "v2" else none,
    kvMeta := fun k =>
      if k = "k1" then some { ts := 1, node_id := "n" }
      else if k = "k2" then some { ts := 2, node_id := "n" } else none }

/-- A publish environment failing exactly on key "k1". -/
def failOnK1 : CrdtOperation → Option String :=
  fun op => if op.key = "k1" then some "boom" else none

/-- A publish environment where every publish succeeds. -/
def noPubFail : CrdtOperation → Option String := fun _ => none

/-- A watch notification for a genuinely local PUT. -/
def witEntry : WatchEntry := { key := "x", value := some "v", operation := WatchKind.PUT }

/-- Equal character lists give equal strings. -/
theorem strData_inj {a b : String} (h : a.data = b.data) : a = b := by
  cases a
  cases b
  exact congrArg String.mk h

/-- pairLt is transitive. -/
theorem pairLt_trans {p q r : Nat × String} (h1 : pairLt p q) (h2 : pairLt q r) : pairLt p r := by
  rcases h1 with h1 | ⟨h1e, h1s⟩ <;> rcases h2 with h2 | ⟨h2e, h2s⟩
  · exact Or.inl (lt_trans h1 h2)
  · exact Or.inl (h2e ▸ h1)
  · exact Or.inl (h1e ▸ h2)
  · exact Or.inr ⟨h1e.trans h2e, lt_trans h1s h2s⟩

/-- pairLt is irreflexive. -/
theorem pairLt_irrefl (p : Nat × String) : ¬ pairLt p p := by
  rintro (h | ⟨-, h⟩)
  · exact lt_irrefl _ h
  · exact lt_irrefl _ h

/-- pairLt is asymmetric. -/
theorem pairLt_asymm {p q : Nat × String} (h1 : pairLt p q) (h2 : pairLt q p) : False :=
  pairLt_irrefl p (pairLt_trans h1 h2)

/-- pairLt is trichotomous. -/
theorem pairLt_trichotomy (p q : Nat × String) : pairLt p q ∨ p = q ∨ pairLt q p := by
  rcases lt_trichotomy p.1 q.1 with h | h | h
  · exact Or.inl (Or.inl h)
  · rcases lt_trichotomy p.2.data q.2.data with hs | hs | hs
    · exact Or.inl (Or.inr ⟨h, hs⟩)
    · exact Or.inr (Or.inl (Prod.ext h (strData_inj hs)))
    · exact Or.inr (Or.inr (Or.inr ⟨h.symm, hs⟩))
  · exact Or.inr (Or.inr (Or.inl h))

/-- The LWW decision restated as strict pair precedence of the local
metadata below the remote operation. -/
theorem remoteWins_iff (s : SyncState) (op : CrdtOperation) :
    remoteWins s op ↔
      pairLt ((localMetaFor s op.key).ts, (localMetaFor s op.key).node_id) (op.ts, op.node_id) :=
  or_congr Iff.rfl (and_congr eq_comm Iff.rfl)

/-- A self-originated message leaves the state unchanged. -/
theorem stepR_self {nodeId : String} {op : CrdtOperation} (s : SyncState)
    (h : op.node_id = nodeId) : stepR nodeId s op = s := by
  simp [stepR, applyRemote, h]

/-- A losing remote message leaves the state unchanged. -/
theorem stepR_not_win {nodeId : String} {op : CrdtOperation} {s : SyncState}
    (h1 : op.node_id ≠ nodeId) (h2 : ¬ remoteWins s op) : stepR nodeId s op = s := by
  simp [stepR, applyRemote, h1, h2]

/-- A winning remote message writes the metadata record and applies the
data mutation. -/
theorem stepR_win {nodeId : String} {op : CrdtOperation} {s : SyncState}
    (h1 : op.node_id ≠ nodeId) (h2 : remoteWins s op) :
    stepR nodeId s op = { kv := mutate op s.kv, kvMeta := metaSet op s.kvMeta } := by
  simp [stepR, applyRemote, h1, h2]

/-- metaSet written out as a function. -/
theorem metaSet_def (op : CrdtOperation) (mm : String → Option KvMetadata) :
    metaSet op mm =
      fun k => if k = op.key then some { ts := op.ts, node_id := op.node_id } else mm k := rfl

/-- metaSet at the written key. -/
theorem metaSet_self (op : CrdtOperation) (mm : String → Option KvMetadata) :
    metaSet op mm op.key = some { ts := op.ts, node_id := op.node_id } := by
  simp [metaSet]

/-- metaSet away from the written key. -/
theorem metaSet_ne {k : String} {op : CrdtOperation} (mm : String → Option KvMetadata)
    (h : k ≠ op.key) : metaSet op mm k = mm k := by
  simp [metaSet, h]

/-- mutate away from the operation's key. -/
theorem mutate_ne {k : String} {op : CrdtOperation} (kv : String → Option String)
    (h : k ≠ op.key) : mutate op kv k = kv k := by
  unfold mutate
  split_ifs <;> simp [h]

/-- The local metadata seen after a winning write at the same key. -/
theorem localMetaFor_after_win {k : String} {a : CrdtOperation} (kv' : String → Option String)
    (mm : String → Option KvMetadata) (h : k = a.key) :
    localMetaFor { kv := kv', kvMeta := metaSet a mm } k = { ts := a.ts, node_id := a.node_id } := by
  simp [localMetaFor, metaSet, h]

/-- A later mutation at the same key absorbs an earlier one, for operations
that are PUTs with a value or DELs. -/
theorem mutate_absorb {a b : CrdtOperation} (kv : String → Option String)
    (hkey : a.key = b.key) (hwfb : b.op = OpKind.PUT → b.value ≠ none) :
    mutate b (mutate a kv) = mutate b kv := by
  funext k
  by_cases hk : k = b.key
  · rcases hb : b.op with _ | _
    · have hv : b.value ≠ none := hwfb hb
      simp [mutate, hb, hv, hk]
    · simp [mutate, hb, hk]
  · rw [mutate_ne _ hk, mutate_ne _ hk, mutate_ne _ (hkey ▸ hk)]

/-- A later metadata write at the same key absorbs an earlier one. -/
theorem metaSet_absorb {a b : CrdtOperation} (mm : String → Option KvMetadata)
    (hkey : a.key = b.key) : metaSet b (metaSet a mm) = metaSet b mm := by
  funext k
  by_cases hk : k = b.key
  · simp [metaSet, hk]
  · rw [metaSet_ne _ hk, metaSet_ne _ hk, metaSet_ne _ (hkey ▸ hk)]

/-- Two remote steps at one key commute when the second has strictly larger
LWW precedence. -/
theorem stepR_comm_aux {nodeId : String} {a b : CrdtOperation} (s : SyncState)
    (hkey : a.key = b.key)
    (hwfb : b.op = OpKind.PUT → b.value ≠ none)
    (hab : pairLt (a.ts, a.node_id) (b.ts, b.node_id)) :
    stepR nodeId (stepR nodeId s a) b = stepR nodeId (stepR nodeId s b) a := by
  by_cases hsa : a.node_id = nodeId
  · rw [stepR_self s hsa, stepR_self _ hsa]
  · by_cases hsb : b.node_id = nodeId
    · rw [stepR_self _ hsb, stepR_self s hsb]
    · by_cases hwa : remoteWins s a
      · have hma : pairLt ((localMetaFor s a.key).ts, (localMetaFor s a.key).node_id)
            (a.ts, a.node_id) := (remoteWins_iff s a).mp hwa
        have hwb : remoteWins s b := by
          rw [remoteWins_iff, ← hkey]
          exact pairLt_trans hma hab
        have hwb1 : remoteWins { kv := mutate a s.kv, kvMeta := metaSet a s.kvMeta } b := by
          rw [remoteWins_iff, localMetaFor_after_win _ _ hkey.symm]
          exact hab
        have hnwa1 : ¬ remoteWins { kv := mutate b s.kv, kvMeta := metaSet b s.kvMeta } a := by
          rw [remoteWins_iff, localMetaFor_after_win _ _ hkey]
          exact fun h => pairLt_asymm hab h
        rw [stepR_win hsa hwa, stepR_win hsb hwb, stepR_win hsb hwb1, stepR_not_win hsa hnwa1]
        rw [show (mutate b (mutate a s.kv)) = mutate b s.kv from mutate_absorb _ hkey hwfb,
          show (metaSet b (metaSet a s.kvMeta)) = metaSet b s.kvMeta from metaSet_absorb _ hkey]
      · have hnwa : stepR nodeId s a = s := stepR_not_win hsa hwa
        by_cases hwb : remoteWins s b
        · have hnwa1 : ¬ remoteWins { kv := mutate b s.kv, kvMeta := metaSet b s.kvMeta } a := by
            rw [remoteWins_iff, localMetaFor_after_win _ _ hkey]
            exact fun h => pairLt_asymm hab h
          rw [hnwa, stepR_win hsb hwb, stepR_not_win hsa hnwa1]
        · rw [hnwa, stepR_not_win hsb hwb, hnwa]

/-- Two remote steps at one key commute when equal identities imply equal
operations and PUTs carry values. -/
theorem stepR_comm {nodeId : String} {a b : CrdtOperation} (s : SyncState)
    (hkey : a.key = b.key)
    (hwfa : a.op = OpKind.PUT → a.value ≠ none)
    (hwfb : b.op = OpKind.PUT → b.value ≠ none)
    (hcompat : a.ts = b.ts → a.node_id = b.node_id → a = b) :
    stepR nodeId (stepR nodeId s a) b = stepR nodeId (stepR nodeId s b) a := by
  rcases pairLt_trichotomy (a.ts, a.node_id) (b.ts, b.node_id) with h | h | h
  · exact stepR_comm_aux s hkey hwfb h
  · rw [hcompat (congrArg Prod.fst h) (congrArg Prod.snd h)]
  · exact (stepR_comm_aux s hkey.symm hwfa h).symm

/-- The remote step is idempotent on every state and operation. -/
theorem stepR_idem (nodeId : String) (s : SyncState) (op : CrdtOperation) :
    stepR nodeId (stepR nodeId s op) op = stepR nodeId s op := by
  by_cases hs : op.node_id = nodeId
  · rw [stepR_self s hs, stepR_self s hs]
  · by_cases hw : remoteWins s op
    · rw [stepR_win hs hw]
      apply stepR_not_win hs
      rw [remoteWins_iff, localMetaFor_after_win _ _ rfl]
      exact pairLt_irrefl _
    · rw [stepR_not_win hs hw, stepR_not_win hs hw]

/-- Re-applying the head operation after folding a tail of same-key
operations is a no-op. -/
theorem stepR_foldl_absorb (nodeId k : String) :
    ∀ (t : List CrdtOperation) (a : CrdtOperation) (s : SyncState),
      (∀ x ∈ a :: t, x.key = k) →
      (∀ x ∈ a :: t, x.op = OpKind.PUT → x.value ≠ none) →
      (∀ x ∈ a :: t, ∀ y ∈ a :: t, x.ts = y.ts → x.node_id = y.node_id → x = y) →
      stepR nodeId (List.foldl (stepR nodeId) (stepR nodeId s a) t) a =
        List.foldl (stepR nodeId) (stepR nodeId s a) t := by
  intro t
  induction t with
  | nil =>
    intro a s _ _ _
    simpa using stepR_idem nodeId s a
  | cons c t' ih =>
    intro a s hkeys hwf hcompat
    have hmem_a : a ∈ a :: c :: t' := List.mem_cons_self a _
    have hmem_c : c ∈ a :: c :: t' := List.mem_cons_of_mem _ (List.mem_cons_self c _)
    have lift : ∀ x ∈ a :: t', x ∈ a :: c :: t' := by
      intro x hx
      rcases List.mem_cons.mp hx with h | h
      · exact h ▸ List.mem_cons_self a _
      · exact List.mem_cons_of_mem _ (List.mem_cons_of_mem _ h)
    have hac : stepR nodeId (stepR nodeId s a) c = stepR nodeId (stepR nodeId s c) a :=
      stepR_comm s ((hkeys a hmem_a).trans (hkeys c hmem_c).symm)
        (hwf a hmem_a) (hwf c hmem_c) (hcompat a hmem_a c hmem_c)
    simp only [List.foldl_cons]
    rw [hac]
    exact ih a (stepR nodeId s c) (fun x hx => hkeys x (lift x hx))
      (fun x hx => hwf x (lift x hx))
      (fun x hx y hy => hcompat x (lift x hx) y (lift y hy))

/-- Applying an operation already folded over is a no-op. -/
theorem stepR_foldl_fix (nodeId k : String) :
    ∀ (l : List CrdtOperation) (a : CrdtOperation) (s : SyncState), a ∈ l →
      (∀ x ∈ a :: l, x.key = k) →
      (∀ x ∈ a :: l, x.op = OpKind.PUT → x.value ≠ none) →
      (∀ x ∈ a :: l, ∀ y ∈ a :: l, x.ts = y.ts → x.node_id = y.node_id → x = y) →
      stepR nodeId (List.foldl (stepR nodeId) s l) a = List.foldl (stepR nodeId) s l := by
  intro l
  induction l with
  | nil =>
    intro a s ha
    exact absurd ha (List.not_mem_nil a)
  | cons c t ih =>
    intro a s ha hkeys hwf hcompat
    simp only [List.foldl_cons]
    rcases List.mem_cons.mp ha with h | h
    · subst h
      have lift : ∀ x ∈ a :: t, x ∈ a :: a :: t := by
        intro x hx
        rcases List.mem_cons.mp hx with h | h
        · exact h ▸ List.mem_cons_self a _
        · exact List.mem_cons_of_mem _ (List.mem_cons_of_mem _ h)
      exact stepR_foldl_absorb nodeId k t a s (fun x hx => hkeys x (lift x hx))
        (fun x hx => hwf x (lift x hx))
        (fun x hx y hy => hcompat x (lift x hx) y (lift y hy))
    · have lift : ∀ x ∈ a :: t, x ∈ a :: c :: t := by
        intro x hx
        rcases List.mem_cons.mp hx with h | h
        · exact h ▸ List.mem_cons_self a _
        · exact List.mem_cons_of_mem _ (List.mem_cons_of_mem _ h)
      exact ih a (stepR nodeId s c) h (fun x hx => hkeys x (lift x hx))
        (fun x hx => hwf x (lift x hx))
        (fun x hx y hy => hcompat x (lift x hx) y (lift y hy))

/-- Folding a list of operations already contained in a folded list is a
no-op. -/
theorem stepR_foldl_subset (nodeId k : String) :
    ∀ (m l : List CrdtOperation) (s : SyncState), (∀ x ∈ m, x ∈ l) →
      (∀ x ∈ l ++ m, x.key = k) →
      (∀ x ∈ l ++ m, x.op = OpKind.PUT → x.value ≠ none) →
      (∀ x ∈ l ++ m, ∀ y ∈ l ++ m, x.ts = y.ts → x.node_id = y.node_id → x = y) →
      List.foldl (stepR nodeId) (List.foldl (stepR nodeId) s l) m =
        List.foldl (stepR nodeId) s l := by
  intro m
  induction m with
  | nil =>
    intro l s _ _ _ _
    rfl
  | cons b m' ih =>
    intro l s hsub hkeys hwf hcompat
    have hb : b ∈ l := hsub b (List.mem_cons_self b m')
    have liftb : ∀ x ∈ b :: l, x ∈ l ++ b :: m' := by
      intro x hx
      rcases List.mem_cons.mp hx with h | h
      · exact List.mem_append.mpr (Or.inr (h ▸ List.mem_cons_self b m'))
      · exact List.mem_append.mpr (Or.inl h)
    have liftm : ∀ x ∈ l ++ m', x ∈ l ++ b :: m' := by
      intro x hx
      rcases List.mem_append.mp hx with h | h
      · exact List.mem_append.mpr (Or.inl h)
      · exact List.mem_append.mpr (Or.inr (List.mem_cons_of_mem _ h))
    have hfix : stepR nodeId (List.foldl (stepR nodeId) s l) b = List.foldl (stepR nodeId) s l :=
      stepR_foldl_fix nodeId k l b s hb (fun x hx => hkeys x (liftb x hx))
        (fun x hx => hwf x (liftb x hx))
        (fun x hx y hy => hcompat x (liftb x hx) y (liftb y hy))
    simp only [List.foldl_cons]
    rw [hfix]
    exact ih l s (fun x hx => hsub x (List.mem_cons_of_mem _ hx))
      (fun x hx => hkeys x (liftm x hx)) (fun x hx => hwf x (liftm x hx))
      (fun x hx y hy => hcompat x (liftm x hx) y (liftm y hy))

/-- Folds of two lists with the same members agree, under distinct
identities and valued PUTs at a single key. -/
theorem stepR_foldl_same_members (nodeId k : String) (s : SyncState)
    (l₁ l₂ : List CrdtOperation)
    (h12 : ∀ x ∈ l₁, x ∈ l₂) (h21 : ∀ x ∈ l₂, x ∈ l₁)
    (hkeys : ∀ x ∈ l₁ ++ l₂, x.key = k)
    (hwf : ∀ x ∈ l₁ ++ l₂, x.op = OpKind.PUT → x.value ≠ none)
    (hcompat : ∀ x ∈ l₁ ++ l₂, ∀ y ∈ l₁ ++ l₂, x.ts = y.ts → x.node_id = y.node_id → x = y) :
    List.foldl (stepR nodeId) s l₁ = List.foldl (stepR nodeId) s l₂ := by
  have hcomm : ∀ x ∈ l₁ ++ l₂, ∀ y ∈ l₁ ++ l₂, ∀ z,
      stepR nodeId (stepR nodeId z x) y = stepR nodeId (stepR nodeId z y) x := by
    intro x hx y hy z
    exact stepR_comm z ((hkeys x hx).trans (hkeys y hy).symm) (hwf x hx) (hwf y hy)
      (hcompat x hx y hy)
  have sw : ∀ x ∈ l₂ ++ l₁, x ∈ l₁ ++ l₂ := by
    intro x hx
    rcases List.mem_append.mp hx with h | h
    · exact List.mem_append.mpr (Or.inr h)
    · exact List.mem_append.mpr (Or.inl h)
  have e3 : List.foldl (stepR nodeId) s (l₁ ++ l₂) = List.foldl (stepR nodeId) s (l₂ ++ l₁) :=
    List.perm_append_comm.foldl_eq' hcomm s
  have e1 : List.foldl (stepR nodeId) s (l₁ ++ l₂) = List.foldl (stepR nodeId) s l₁ := by
    rw [List.foldl_append]
    exact stepR_foldl_subset nodeId k l₂ l₁ s h21 hkeys hwf hcompat
  have e2 : List.foldl (stepR nodeId) s (l₂ ++ l₁) = List.foldl (stepR nodeId) s l₂ := by
    rw [List.foldl_append]
    exact stepR_foldl_subset nodeId k l₁ l₂ s h12 (fun x hx => hkeys x (sw x hx))
      (fun x hx => hwf x (sw x hx)) (fun x hx y hy => hcompat x (sw x hx) y (sw y hy))
  rw [← e1, e3, e2]

/-- The effect trace of one remote message replays to the state the remote
listener step produces. -/
theorem remoteEffects_replay (nodeId : String) (s : SyncState) (op : CrdtOperation) :
    List.foldl runEffect s (remoteEffects nodeId s op) = (applyRemote nodeId s op).state := by
  by_cases h1 : op.node_id = nodeId
  · simp [remoteEffects, runEffect, applyRemote, h1]
  · by_cases h2 : remoteWins s op
    · rcases hop : op.op with _ | _
      · rcases hv : op.value with _ | v
        · simp [remoteEffects, runEffect, applyRemote, mutate, metaSet_def, h1, h2, hop, hv]
        · simp [remoteEffects, runEffect, applyRemote, mutate, metaSet_def, h1, h2, hop, hv]
      · simp [remoteEffects, runEffect, applyRemote, mutate, metaSet_def, h1, h2, hop]
    · simp [remoteEffects, runEffect, applyRemote, h1, h2]

/-- C1: a received remote operation (op.node_id differing from the local
site id) is applied iff op.ts exceeds the local metadata timestamp, or the
timestamps are equal and op.node_id is lexicographically greater than the
local metadata node_id, the local record defaulting to timestamp 0 and
empty node_id when absent. -/
theorem lww_decision_iff (nodeId : String) (s : SyncState) (op : CrdtOperation)
    (h : op.node_id ≠ nodeId) :
    (applyRemote nodeId s op).applied = true ↔
      ((localMetaFor s op.key).ts < op.ts ∨
        (op.ts = (localMetaFor s op.key).ts ∧
          strLt (localMetaFor s op.key).node_id op.node_id)) := by
  by_cases hw : remoteWins s op <;> simp [applyRemote, h, hw]

/-- Witness for lww_decision_iff at site "a", empty state, and witPut. -/
theorem lww_decision_iff_witness :
    witPut.node_id ≠ "a" ∧
      ((applyRemote "a" emptyState witPut).applied = true ↔
        ((localMetaFor emptyState witPut.key).ts < witPut.ts ∨
          (witPut.ts = (localMetaFor emptyState witPut.key).ts ∧
            strLt (localMetaFor emptyState witPut.key).node_id witPut.node_id))) :=
  ⟨by decide, lww_decision_iff "a" emptyState witPut (by decide)⟩

/-- C2 counterexample: two distinct PUTs sharing the (ts, node_id) identity,
applied in the two orders of the same two-element multiset from the same
empty state, leave different values for the key. -/
theorem convergence_counterexample :
    List.Perm [cexSameId1, cexSameId2] [cexSameId2, cexSameId1] ∧
    (∀ x ∈ [cexSameId1, cexSameId2], x.key = "x") ∧
    (List.foldl (stepR "a") emptyState [cexSameId1, cexSameId2]).kv "x" ≠
      (List.foldl (stepR "a") emptyState [cexSameId2, cexSameId1]).kv "x" :=
  ⟨List.Perm.swap cexSameId2 cexSameId1 [], by decide, by decide⟩

/-- C2 amended: two sequences with the same member operations for a single
key, where distinct operations carry distinct (ts, node_id) identities and
every PUT carries a non-null value, fold to the same final value and
metadata record for that key. -/
theorem convergence_of_distinct_identities (nodeId k : String) (s : SyncState)
    (l₁ l₂ : List CrdtOperation)
    (h12 : ∀ x ∈ l₁, x ∈ l₂) (h21 : ∀ x ∈ l₂, x ∈ l₁)
    (hkeys : ∀ x ∈ l₁ ++ l₂, x.key = k)
    (hwf : ∀ x ∈ l₁ ++ l₂, x.op = OpKind.PUT → x.value ≠ none)
    (hcompat : ∀ x ∈ l₁ ++ l₂, ∀ y ∈ l₁ ++ l₂, x.ts = y.ts → x.node_id = y.node_id → x = y) :
    (List.foldl (stepR nodeId) s l₁).kv k = (List.foldl (stepR nodeId) s l₂).kv k ∧
    (List.foldl (stepR nodeId) s l₁).kvMeta k = (List.foldl (stepR nodeId) s l₂).kvMeta k := by
  rw [stepR_foldl_same_members nodeId k s l₁ l₂ h12 h21 hkeys hwf hcompat]
  exact ⟨rfl, rfl⟩

/-- Witness for convergence_of_distinct_identities on two orderings with
duplication of a PUT and a DEL. -/
theorem convergence_of_distinct_identities_witness :
    (∀ x ∈ [witPut, witDel], x ∈ [witDel, witPut, witPut]) ∧
    (∀ x ∈ [witDel, witPut, witPut], x ∈ [witPut, witDel]) ∧
    (∀ x ∈ [witPut, witDel] ++ [witDel, witPut, witPut], x.key = "x") ∧
    (∀ x ∈ [witPut, witDel] ++ [witDel, witPut, witPut],
      x.op = OpKind.PUT → x.value ≠ none) ∧
    (∀ x ∈ [witPut, witDel] ++ [witDel, witPut, witPut],
      ∀ y ∈ [witPut, witDel] ++ [witDel, witPut, witPut],
        x.ts = y.ts → x.node_id = y.node_id → x = y) ∧
    ((List.foldl (stepR "a") emptyState [witPut, witDel]).kv "x" =
        (List.foldl (stepR "a") emptyState [witDel, witPut, witPut]).kv "x" ∧
      (List.foldl (stepR "a") emptyState [witPut, witDel]).kvMeta "x" =
        (List.foldl (stepR "a") emptyState [witDel, witPut, witPut]).kvMeta "x") :=
  ⟨by decide, by decide, by decide, by decide, by decide,
    convergence_of_distinct_identities "a" "x" emptyState [witPut, witDel]
      [witDel, witPut, witPut] (by decide) (by decide) (by decide) (by decide) (by decide)⟩

/-- C3: applying one operation twice in a row through the remote step gives
the same data value and metadata record at its key as applying it once. -/
theorem redelivery_idempotent (nodeId : String) (s : SyncState) (op : CrdtOperation) :
    (stepR nodeId (stepR nodeId s op) op).kv op.key = (stepR nodeId s op).kv op.key ∧
    (stepR nodeId (stepR nodeId s op) op).kvMeta op.key = (stepR nodeId s op).kvMeta op.key := by
  rw [stepR_idem]
  exact ⟨rfl, rfl⟩

/-- C4: once a DELETE has been applied, a later-delivered PUT with smaller
LWW precedence leaves the key absent from the data store and its metadata
record unchanged. -/
theorem tombstone_blocks_older_put (nodeId : String) (s : SyncState)
    (dop pop : CrdtOperation)
    (hdel : dop.op = OpKind.DEL) (hdnode : dop.node_id ≠ nodeId)
    (hdwin : remoteWins s dop)
    (_hput : pop.op = OpKind.PUT) (hkey : pop.key = dop.key)
    (holder : pop.ts < dop.ts ∨ (pop.ts = dop.ts ∧ strLt pop.node_id dop.node_id)) :
    (stepR nodeId s dop).kv dop.key = none ∧
    (stepR nodeId (stepR nodeId s dop) pop).kv dop.key = none ∧
    (stepR nodeId (stepR nodeId s dop) pop).kvMeta dop.key =
      (stepR nodeId s dop).kvMeta dop.key := by
  have h1 : stepR nodeId s dop = { kv := mutate dop s.kv, kvMeta := metaSet dop s.kvMeta } :=
    stepR_win hdnode hdwin
  have habsent : (stepR nodeId s dop).kv dop.key = none := by
    rw [h1]
    show mutate dop s.kv dop.key = none
    simp [mutate, hdel]
  have hsame : stepR nodeId (stepR nodeId s dop) pop = stepR nodeId s dop := by
    by_cases hpn : pop.node_id = nodeId
    · exact stepR_self _ hpn
    · apply stepR_not_win hpn
      rw [h1, remoteWins_iff, localMetaFor_after_win _ _ hkey]
      exact fun h => pairLt_asymm h holder
  exact ⟨habsent, by rw [hsame]; exact habsent, by rw [hsame]⟩

/-- Witness for tombstone_blocks_older_put: site "a", a DELETE at ts 2 from
"c" applied over tombState, then a PUT at ts 1 from "b". -/
theorem tombstone_blocks_older_put_witness :
    witDel.op = OpKind.DEL ∧ witDel.node_id ≠ "a" ∧ remoteWins tombState witDel ∧
      witPut.op = OpKind.PUT ∧ witPut.key = witDel.key ∧
      (witPut.ts < witDel.ts ∨ (witPut.ts = witDel.ts ∧ strLt witPut.node_id witDel.node_id)) ∧
      ((stepR "a" tombState witDel).kv witDel.key = none ∧
        (stepR "a" (stepR "a" tombState witDel) witPut).kv witDel.key = none ∧
        (stepR "a" (stepR "a" tombState witDel) witPut).kvMeta witDel.key =
          (stepR "a" tombState witDel).kvMeta witDel.key) :=
  ⟨by decide, by decide, by decide, by decide, by decide, by decide,
    tombstone_blocks_older_put "a" tombState witDel witPut (by decide) (by decide)
      (by decide) (by decide) (by decide) (by decide)⟩

/-- C5: an operation carrying the local site's own node_id leaves the whole
state unchanged and is acknowledged. -/
theorem self_echo_suppressed (nodeId : String) (s : SyncState) (op : CrdtOperation)
    (h : op.node_id = nodeId) :
    (applyRemote nodeId s op).state = s ∧ (applyRemote nodeId s op).acked = true := by
  simp [applyRemote, h]

/-- Witness for self_echo_suppressed at site "a" and witSelfOp. -/
theorem self_echo_suppressed_witness :
    witSelfOp.node_id = "a" ∧
      ((applyRemote "a" tombState witSelfOp).state = tombState ∧
        (applyRemote "a" tombState witSelfOp).acked = true) :=
  ⟨rfl, self_echo_suppressed "a" tombState witSelfOp rfl⟩

/-- C6: in the effect trace of a winning remote operation the metadata
write comes first and every data-store mutation comes strictly after it. -/
theorem meta_write_before_data_write (nodeId : String) (s : SyncState) (op : CrdtOperation)
    (h1 : op.node_id ≠ nodeId) (h2 : remoteWins s op) :
    (remoteEffects nodeId s op)[0]? =
      some (Effect.metaWrite op.key { ts := op.ts, node_id := op.node_id }) ∧
    ∀ (j : Nat) (e : Effect), (remoteEffects nodeId s op)[j]? = some e → e.isDataMut = true →
      ∃ i, i < j ∧ (remoteEffects nodeId s op)[i]? =
        some (Effect.metaWrite op.key { ts := op.ts, node_id := op.node_id }) := by
  have heff : remoteEffects nodeId s op =
      Effect.metaWrite op.key { ts := op.ts, node_id := op.node_id } ::
        ((if op.op = OpKind.PUT ∧ op.value ≠ none then [Effect.dataPut op.key (op.value.getD "")]
          else if op.op = OpKind.DEL then [Effect.dataDelete op.key]
          else []) ++ [Effect.ack]) := by
    simp [remoteEffects, h1, h2]
  rw [heff]
  refine ⟨by simp, ?_⟩
  intro j e hj hmut
  rcases j with _ | j'
  · rw [List.getElem?_cons_zero, Option.some_inj] at hj
    rw [← hj] at hmut
    simp [Effect.isDataMut] at hmut
  · exact ⟨0, Nat.succ_pos j', by simp⟩

/-- Witness for meta_write_before_data_write: winning DELETE over
tombState at site "a". -/
theorem meta_write_before_data_write_witness :
    witDel.node_id ≠ "a" ∧ remoteWins tombState witDel ∧
      ((remoteEffects "a" tombState witDel)[0]? =
          some (Effect.metaWrite witDel.key { ts := witDel.ts, node_id := witDel.node_id }) ∧
        ∀ (j : Nat) (e : Effect),
          (remoteEffects "a" tombState witDel)[j]? = some e → e.isDataMut = true →
          ∃ i, i < j ∧ (remoteEffects "a" tombState witDel)[i]? =
            some (Effect.metaWrite witDel.key { ts := witDel.ts, node_id := witDel.node_id })) :=
  ⟨by decide, by decide, meta_write_before_data_write "a" tombState witDel (by decide) (by decide)⟩

/-- C7: the local watcher drops a notification whose key already carries a
foreign metadata record, with no metadata write and no publish; otherwise it
writes the fresh metadata record and publishes the operation with the key,
notified value, fresh timestamp, and local node id. -/
theorem local_watcher_echo_filter (nodeId : String) (now : Nat) (s : SyncState)
    (entry : WatchEntry) :
    (∀ m, s.kvMeta entry.key = some m → m.node_id ≠ nodeId →
      localWatchStep nodeId now s entry = (s, none)) ∧
    ((s.kvMeta entry.key = none ∨ ∃ m, s.kvMeta entry.key = some m ∧ m.node_id = nodeId) →
      localWatchStep nodeId now s entry =
        ({ s with kvMeta :=
            fun k => if k = entry.key then some { ts := now, node_id := nodeId } else s.kvMeta k },
          some { op := if entry.operation = WatchKind.DEL ∨ entry.value = none then OpKind.DEL
                       else OpKind.PUT,
                 bucket := BUCKET_NAME, key := entry.key, value := entry.value,
                 ts := now, node_id := nodeId })) := by
  constructor
  · intro m hm hne
    simp [localWatchStep, hm, hne]
  · intro hcase
    rcases hcase with hnone | ⟨m, hm, heq⟩
    · simp [localWatchStep, hnone]
    · simp [localWatchStep, hm, heq]

/-- Witness for local_watcher_echo_filter on the publish side: site "a",
clock 7, empty state, a local PUT of "v" at "x". -/
theorem local_watcher_echo_filter_witness :
    (emptyState.kvMeta witEntry.key = none ∨
      ∃ m, emptyState.kvMeta witEntry.key = some m ∧ m.node_id = "a") ∧
    localWatchStep "a" 7 emptyState witEntry =
      ({ emptyState with kvMeta :=
          fun k =>
            if k = witEntry.key then some { ts := 7, node_id := "a" } else emptyState.kvMeta k },
        some { op := if witEntry.operation = WatchKind.DEL ∨ witEntry.value = none then OpKind.DEL
                     else OpKind.PUT,
               bucket := BUCKET_NAME, key := witEntry.key, value := witEntry.value,
               ts := 7, node_id := "a" }) :=
  ⟨Or.inl rfl, (local_watcher_echo_filter "a" 7 emptyState witEntry).2 (Or.inl rfl)⟩

/-- C8: an error-free anti-entropy cycle republishes, for each key holding
both a data value and a metadata record, a PUT carrying the stored value
and the stored timestamp and node id, skips every other key, and leaves the
local stores untouched. -/
theorem anti_entropy_republishes_stored (pubFail : CrdtOperation → Option String)
    (s : SyncState) (keys : List String) (hok : ∀ op, pubFail op = none) :
    antiEntropyLoop pubFail s keys = (s, reconcileOps s keys, none) := by
  induction keys with
  | nil => simp [antiEntropyLoop, reconcileOps]
  | cons key rest ih =>
    rcases hkv : s.kv key with _ | v <;> rcases hmm2 : s.kvMeta key with _ | m <;>
      simp [antiEntropyLoop, reconcileOps, List.filterMap_cons, hkv, hmm2, hok, ih]

/-- Witness for anti_entropy_republishes_stored over cycleState. -/
theorem anti_entropy_republishes_stored_witness :
    (∀ op, noPubFail op = none) ∧
      antiEntropyLoop noPubFail cycleState ["k1", "k2", "k3"] =
        (cycleState, reconcileOps cycleState ["k1", "k2", "k3"], none) :=
  ⟨fun _ => rfl,
    anti_entropy_republishes_stored noPubFail cycleState ["k1", "k2", "k3"] fun _ => rfl⟩

/-- C9 counterexample: keys k1 and k2 both hold a value and metadata, the
publish for k1 raises while the publish for k2 would succeed, yet the cycle
publishes nothing at all: the later key is not re-published, the cycle is
aborted with the caught error. -/
theorem anti_entropy_error_counterexample :
    cycleState.kv "k2" = some "v2" ∧
    cycleState.kvMeta "k2" = some { ts := 2, node_id := "n" } ∧
    failOnK1 { op := OpKind.PUT, bucket := BUCKET_NAME, key := "k2", value := some "v2",
               ts := 2, node_id := "n" } = none ∧
    (antiEntropyLoop failOnK1 cycleState ["k1", "k2"]).2.1 = [] ∧
    (antiEntropyLoop failOnK1 cycleState ["k1", "k2"]).2.2 = some "boom" :=
  ⟨by decide, by decide, by decide, by decide, by decide⟩

/-- C9 amended: an error while reconciling one key is caught (logged) and
aborts the remainder of that cycle, so only the keys before the failing one
are re-published; every later scheduled cycle still runs with its own
publish environment. -/
theorem anti_entropy_error_aborts_cycle (pubFail : CrdtOperation → Option String)
    (s : SyncState) (front rest : List String) (key : String) (v : String)
    (m : KvMetadata) (e : String)
    (hfront : ∀ x ∈ front, ∀ (v' : String) (m' : KvMetadata),
      s.kv x = some v' → s.kvMeta x = some m' →
      pubFail { op := OpKind.PUT, bucket := BUCKET_NAME, key := x, value := some v',
                ts := m'.ts, node_id := m'.node_id } = none)
    (hv : s.kv key = some v) (hm : s.kvMeta key = some m)
    (hfail : pubFail { op := OpKind.PUT, bucket := BUCKET_NAME, key := key, value := some v,
                       ts := m.ts, node_id := m.node_id } = some e) :
    antiEntropyLoop pubFail s (front ++ key :: rest) = (s, reconcileOps s front, some e) ∧
    ∀ (pubFails : List (CrdtOperation → Option String)) (ks : List String),
      antiEntropyTicks (pubFail :: pubFails) s ks =
        antiEntropyLoop pubFail s ks :: antiEntropyTicks pubFails s ks := by
  refine ⟨?_, fun _ _ => rfl⟩
  induction front with
  | nil => simp [antiEntropyLoop, reconcileOps, hv, hm, hfail]
  | cons f fr ih =>
    have hpf := hfront f (List.mem_cons_self f fr)
    have ih' := ih fun x hx v' m' => hfront x (List.mem_cons_of_mem f hx) v' m'
    rcases hkv : s.kv f with _ | v'
    · simpa [antiEntropyLoop, reconcileOps, List.filterMap_cons, hkv] using ih'
    · rcases hmm2 : s.kvMeta f with _ | m'
      · simpa [antiEntropyLoop, reconcileOps, List.filterMap_cons, hkv, hmm2] using ih'
      · have hok := hpf v' m' hkv hmm2
        simp [antiEntropyLoop, reconcileOps, List.filterMap_cons, hkv, hmm2, hok, ih']

/-- Witness for anti_entropy_error_aborts_cycle: k2 succeeds before the
failing k1, k3 comes after. -/
theorem anti_entropy_error_aborts_cycle_witness :
    (∀ x ∈ ["k2"], ∀ (v' : String) (m' : KvMetadata),
      cycleState.kv x = some v' → cycleState.kvMeta x = some m' →
      failOnK1 { op := OpKind.PUT, bucket := BUCKET_NAME, key := x, value := some v',
                 ts := m'.ts, node_id := m'.node_id } = none) ∧
    cycleState.kv "k1" = some "v1" ∧
    cycleState.kvMeta "k1" = some { ts := 1, node_id := "n" } ∧
    failOnK1 { op := OpKind.PUT, bucket := BUCKET_NAME, key := "k1", value := some "v1",
               ts := 1, node_id := "n" } = some "boom" ∧
    (antiEntropyLoop failOnK1 cycleState (["k2"] ++ "k1" :: ["k3"]) =
        (cycleState, reconcileOps cycleState ["k2"], some "boom") ∧
      ∀ (pubFails : List (CrdtOperation → Option String)) (ks : List String),
        antiEntropyTicks (failOnK1 :: pubFails) cycleState ks =
          antiEntropyLoop failOnK1 cycleState ks :: antiEntropyTicks pubFails cycleState ks) := by
  have hf : ∀ x ∈ ["k2"], ∀ (v' : String) (m' : KvMetadata),
      cycleState.kv x = some v' → cycleState.kvMeta x = some m' →
      failOnK1 { op := OpKind.PUT, bucket := BUCKET_NAME, key := x, value := some v',
                 ts := m'.ts, node_id := m'.node_id } = none := by
    intro x hx v' m' _ _
    rcases List.mem_cons.mp hx with h | h
    · subst h
      simp [failOnK1]
    · exact absurd h (List.not_mem_nil x)
  exact ⟨hf, by decide, by decide, by decide,
    anti_entropy_error_aborts_cycle failOnK1 cycleState ["k2"] ["k3"] "k1" "v1"
      { ts := 1, node_id := "n" } "boom" hf (by decide) (by decide) (by decide)⟩

/-- C10: a winning remote PUT whose value is null updates the metadata
record of its key but leaves the data store entirely unchanged. -/
theorem put_null_meta_only (nodeId : String) (s : SyncState) (op : CrdtOperation)
    (hnode : op.node_id ≠ nodeId) (hput : op.op = OpKind.PUT)
    (hnull : op.value = none) (hwin : remoteWins s op) :
    (stepR nodeId s op).kvMeta op.key = some { ts := op.ts, node_id := op.node_id } ∧
    (stepR nodeId s op).kv = s.kv := by
  rw [stepR_win hnode hwin]
  refine ⟨metaSet_self op s.kvMeta, ?_⟩
  show mutate op s.kv = s.kv
  simp [mutate, hput, hnull]

/-- Witness for put_null_meta_only: witNullPut over tombState at site "a". -/
theorem put_null_meta_only_witness :
    witNullPut.node_id ≠ "a" ∧ witNullPut.op = OpKind.PUT ∧ witNullPut.value = none ∧
      remoteWins tombState witNullPut ∧
      ((stepR "a" tombState witNullPut).kvMeta witNullPut.key =
          some { ts := witNullPut.ts, node_id := witNullPut.node_id } ∧
        (stepR "a" tombState witNullPut).kv = tombState.kv) :=
  ⟨by decide, by decide, by decide, by decide,
    put_null_meta_only "a" tombState witNullPut (by decide) (by decide) (by decide) (by decide)⟩

end NatsKvSync
